import Mathlib

/-!
Verification development for the `goes` index-transfer tool (Go).

The Go sources are shallowly embedded: pure fragments become Lean
functions; channel traffic is modelled as the list of values sent; the
HTTP transport is modelled by passing the (already read) response to the
function that consumes it.  Machine integers are modelled as `Int`/`Nat`
(no arithmetic here ever overflows a 64-bit int), `[]byte` as
`List Char`, and fallible Go functions return `Option`/`Except`.
-/

/-- ES Bulk op (shared record type `Bulk` of the Go sources): an `_id`,
a `_type` (field `Ty` here, since `Type` is reserved in Lean) and the raw
document bytes. -/
structure Bulk where
  Id : String
  Ty : String
  Doc : List Char
  deriving Repr, DecidableEq

/-- Batcher state: the pending buffer `batch` and the configured capacity
`size`.  The Go field `dest chan<- []Bulk` is modelled by returning the
list of batches sent on the channel alongside the new state. -/
structure Batcher where
  batch : List Bulk := []
  size : Nat
  deriving Repr, DecidableEq

/-- Model of `Batcher.Flush`: if the buffer is non-empty it is sent on the
channel and the buffer is reset; an empty buffer sends nothing. -/
def Batcher.Flush (this : Batcher) : Batcher × List (List Bulk) :=
  if this.batch.length ≠ 0 then
    ({ this with batch := [] }, [this.batch])
  else
    (this, [])

/-- Model of `Batcher.Put`: append the record to the buffer; when the
buffer length reaches `size`, `Flush` is invoked. -/
def Batcher.Put (this : Batcher) (b : Bulk) : Batcher × List (List Bulk) :=
  let appended : Batcher := { this with batch := this.batch ++ [b] }
  if appended.batch.length = appended.size then appended.Flush
  else (appended, [])

/-- Sequence of `Put` calls: feeds every record of the list to the
Batcher in order, collecting everything sent on the channel. -/
def Batcher.PutAll (this : Batcher) : List Bulk → Batcher × List (List Bulk)
  | [] => (this, [])
  | b :: rest =>
    let step := this.Put b
    let next := step.1.PutAll rest
    (next.1, step.2 ++ next.2)

/-- Splitting a list into consecutive chunks of `size` elements, the last
chunk possibly shorter.  This is the independent description of the batch
shapes that the Batcher is claimed to produce. -/
def chunkList (size : Nat) (l : List Bulk) : List (List Bulk) :=
  if l = [] then []
  else if l.length < size ∨ size = 0 then [l]
  else l.take size :: chunkList size (l.drop size)
termination_by l.length
decreasing_by
  simp only [List.length_drop]
  rename_i h1 h2
  push_neg at h2
  have : 0 < l.length := List.length_pos.mpr h1
  omega

lemma chunkList_nil (size : Nat) : chunkList size [] = [] := by
  simp [chunkList]

lemma chunkList_short (size : Nat) (l : List Bulk) (hne : l ≠ [])
    (hlt : l.length < size) : chunkList size l = [l] := by
  rw [chunkList]
  simp [hne, hlt]

lemma chunkList_step (size : Nat) (l : List Bulk) (hne : l ≠ [])
    (hge : size ≤ l.length) (hpos : 0 < size) :
    chunkList size l = l.take size :: chunkList size (l.drop size) := by
  rw [chunkList]
  have h1 : ¬ l.length < size := by omega
  have h2 : ¬ size = 0 := by omega
  simp [hne, h1, h2]

lemma Batcher.Put_eq_pos (st : Batcher) (b : Bulk)
    (h : (st.batch ++ [b]).length = st.size) :
    st.Put b = ({ st with batch := [] }, [st.batch ++ [b]]) := by
  unfold Batcher.Put Batcher.Flush
  dsimp only
  rw [if_pos h, if_pos (by simp)]

lemma Batcher.Put_eq_neg (st : Batcher) (b : Bulk)
    (h : (st.batch ++ [b]).length ≠ st.size) :
    st.Put b = ({ st with batch := st.batch ++ [b] }, []) := by
  unfold Batcher.Put
  dsimp only
  rw [if_neg h]

lemma Batcher.PutAll_cons (st : Batcher) (b : Bulk) (rest : List Bulk) :
    st.PutAll (b :: rest) =
      (((st.Put b).1.PutAll rest).1, (st.Put b).2 ++ ((st.Put b).1.PutAll rest).2) := rfl

lemma Batcher.PutAll_size (st : Batcher) (docs : List Bulk) :
    (st.PutAll docs).1.size = st.size := by
  induction docs generalizing st with
  | nil => rfl
  | cons b rest ih =>
    rw [Batcher.PutAll_cons]
    dsimp only
    by_cases h : (st.batch ++ [b]).length = st.size
    · rw [Batcher.Put_eq_pos st b h]
      exact ih _
    · rw [Batcher.Put_eq_neg st b h]
      exact ih _

/-- Invariant: starting below capacity, the buffer stays below capacity
through any sequence of `Put` calls. -/
lemma Batcher.PutAll_batch_lt (st : Batcher) (docs : List Bulk)
    (h : st.batch.length < st.size) :
    (st.PutAll docs).1.batch.length < st.size := by
  induction docs generalizing st with
  | nil => exact h
  | cons b rest ih =>
    rw [Batcher.PutAll_cons]
    dsimp only
    by_cases hc : (st.batch ++ [b]).length = st.size
    · rw [Batcher.Put_eq_pos st b hc]
      exact ih { st with batch := [] } (by simp; omega)
    · rw [Batcher.Put_eq_neg st b hc]
      refine ih { st with batch := st.batch ++ [b] } ?_
      simp only [List.length_append, List.length_singleton] at hc ⊢
      omega

/-- Every batch sent from within `Put` has exactly `size` records. -/
lemma Batcher.PutAll_sent_full (st : Batcher) (docs : List Bulk)
    (h : st.batch.length < st.size) :
    ∀ bt ∈ (st.PutAll docs).2, bt.length = st.size := by
  induction docs generalizing st with
  | nil => intro bt hbt; simp [Batcher.PutAll] at hbt
  | cons b rest ih =>
    intro bt hbt
    rw [Batcher.PutAll_cons] at hbt
    dsimp only at hbt
    by_cases hc : (st.batch ++ [b]).length = st.size
    · rw [Batcher.Put_eq_pos st b hc] at hbt
      simp only [List.mem_append, List.mem_singleton] at hbt
      rcases hbt with hbt | hbt
      · subst hbt; exact hc
      · exact ih { st with batch := [] } (by simp; omega) bt hbt
    · rw [Batcher.Put_eq_neg st b hc] at hbt
      simp only [List.nil_append] at hbt
      refine ih { st with batch := st.batch ++ [b] } ?_ bt hbt
      simp only [List.length_append, List.length_singleton] at hc ⊢
      omega

/-- Main Batcher characterisation: the batches sent during the `Put`
calls followed by the final `Flush` are exactly the chunks of the input
(prefixed with whatever was already buffered). -/
lemma Batcher.PutAll_flush_chunks (docs : List Bulk) (st : Batcher)
    (h : st.batch.length < st.size) :
    (st.PutAll docs).2 ++ ((st.PutAll docs).1.Flush).2 =
      chunkList st.size (st.batch ++ docs) := by
  induction docs generalizing st with
  | nil =>
    show ([] : List (List Bulk)) ++ (st.Flush).2 = chunkList st.size (st.batch ++ [])
    rw [List.append_nil]
    unfold Batcher.Flush
    by_cases hb : st.batch.length ≠ 0
    · have hne : st.batch ≠ [] := by
        intro hcon; rw [hcon] at hb; simp at hb
      rw [if_pos hb]
      simp only [List.nil_append]
      rw [chunkList_short st.size st.batch hne h]
    · push_neg at hb
      have : st.batch = [] := List.length_eq_zero.mp hb
      simp [this, hb, chunkList_nil]
  | cons b rest ih =>
    rw [Batcher.PutAll_cons]
    dsimp only
    by_cases hc : (st.batch ++ [b]).length = st.size
    · rw [Batcher.Put_eq_pos st b hc]
      dsimp only
      have ihz := ih { st with batch := [] } (by simp; omega)
      simp only [List.nil_append] at ihz
      rw [List.append_assoc, ihz]
      have hfull : st.batch ++ b :: rest = (st.batch ++ [b]) ++ rest := by
        simp
      rw [hfull]
      have hnil : (st.batch ++ [b]) ++ rest ≠ [] := by simp
      have hge : st.size ≤ ((st.batch ++ [b]) ++ rest).length := by
        simp only [List.length_append, List.length_singleton] at hc ⊢
        omega
      have hpos : 0 < st.size := by omega
      have htake : (st.batch ++ [b] ++ rest).take st.size = st.batch ++ [b] := by
        rw [← hc]; exact List.take_left _ _
      have hdrop : (st.batch ++ [b] ++ rest).drop st.size = rest := by
        rw [← hc]; exact List.drop_left _ _
      rw [chunkList_step st.size _ hnil hge hpos, htake, hdrop]
      rfl
    · rw [Batcher.Put_eq_neg st b hc]
      dsimp only
      have hlt : (st.batch ++ [b]).length < st.size := by
        simp only [List.length_append, List.length_singleton] at hc ⊢
        omega
      have ihs := ih { st with batch := st.batch ++ [b] } hlt
      dsimp only at ihs
      simp only [List.nil_append] at ihs ⊢
      rw [ihs]
      congr 1
      simp

lemma Batcher.Flush_snd (st : Batcher) :
    st.Flush.2 = if st.batch = [] then [] else [st.batch] := by
  unfold Batcher.Flush
  by_cases hb : st.batch.length ≠ 0
  · rw [if_pos hb, if_neg (by intro hcon; rw [hcon] at hb; simp at hb)]
  · push_neg at hb
    rw [if_neg (by simpa using hb), if_pos (List.length_eq_zero.mp hb)]

/-- C4: for every capacity `size ≥ 1` and every sequence of `Put` calls
followed by one `Flush`, each batch the Batcher sends from within `Put`
has exactly `size` records; `Flush` sends the remaining buffer as one
batch only when the buffer is non-empty (an empty buffer produces no
batch); and no emitted batch ever exceeds `size` records. -/
theorem batcher_put_flush_contract (size : Nat) (records : List Bulk) (h : 1 ≤ size) :
    (∀ bt ∈ (Batcher.PutAll ⟨[], size⟩ records).2, bt.length = size) ∧
    ((Batcher.PutAll ⟨[], size⟩ records).1.Flush.2 =
      if (Batcher.PutAll ⟨[], size⟩ records).1.batch = [] then []
      else [(Batcher.PutAll ⟨[], size⟩ records).1.batch]) ∧
    (∀ bt ∈ (Batcher.PutAll ⟨[], size⟩ records).2 ++
        (Batcher.PutAll ⟨[], size⟩ records).1.Flush.2, bt.length ≤ size) := by
  have hlt0 : (⟨[], size⟩ : Batcher).batch.length < (⟨[], size⟩ : Batcher).size := by
    simp; omega
  have hfull := Batcher.PutAll_sent_full ⟨[], size⟩ records hlt0
  have hlt := Batcher.PutAll_batch_lt ⟨[], size⟩ records hlt0
  refine ⟨hfull, Batcher.Flush_snd _, ?_⟩
  intro bt hbt
  rw [List.mem_append] at hbt
  rcases hbt with hbt | hbt
  · exact le_of_eq (hfull bt hbt)
  · rw [Batcher.Flush_snd] at hbt
    by_cases hb : (Batcher.PutAll ⟨[], size⟩ records).1.batch = []
    · rw [if_pos hb] at hbt; simp at hbt
    · rw [if_neg hb] at hbt
      simp only [List.mem_singleton] at hbt
      subst hbt
      exact le_of_lt hlt

/-- Witness for `batcher_put_flush_contract` at `size = 2` with three
records. -/
theorem batcher_put_flush_contract_witness :
    1 ≤ 2 ∧
    ((∀ bt ∈ (Batcher.PutAll ⟨[], 2⟩ [⟨"1", "a", []⟩, ⟨"2", "a", []⟩, ⟨"3", "b", []⟩]).2,
        bt.length = 2) ∧
    ((Batcher.PutAll ⟨[], 2⟩ [⟨"1", "a", []⟩, ⟨"2", "a", []⟩, ⟨"3", "b", []⟩]).1.Flush.2 =
      if (Batcher.PutAll ⟨[], 2⟩ [⟨"1", "a", []⟩, ⟨"2", "a", []⟩, ⟨"3", "b", []⟩]).1.batch = []
      then []
      else [(Batcher.PutAll ⟨[], 2⟩ [⟨"1", "a", []⟩, ⟨"2", "a", []⟩, ⟨"3", "b", []⟩]).1.batch]) ∧
    (∀ bt ∈ (Batcher.PutAll ⟨[], 2⟩ [⟨"1", "a", []⟩, ⟨"2", "a", []⟩, ⟨"3", "b", []⟩]).2 ++
        (Batcher.PutAll ⟨[], 2⟩ [⟨"1", "a", []⟩, ⟨"2", "a", []⟩, ⟨"3", "b", []⟩]).1.Flush.2,
      bt.length ≤ 2)) :=
  ⟨by decide, batcher_put_flush_contract 2 [⟨"1", "a", []⟩, ⟨"2", "a", []⟩, ⟨"3", "b", []⟩] (by decide)⟩

/-- Model of `EsConn.readBulk` (the per-collection extraction loop of the
ES source): the records of one collection (its scroll pages flattened, in
page-then-hit order) are fed through a Batcher created fresh for this
collection, and the deferred `batcher.Flush()` runs when the collection
is exhausted.  Scroll-open and marshalling failures panic in the Go code
and are outside this happy-path model. -/
def EsConn.readBulk (docs : List Bulk) (bulkSize : Nat) : List (List Bulk) :=
  let run := Batcher.PutAll { batch := [], size := bulkSize } docs
  run.2 ++ run.1.Flush.2

/-- Model of `EsConn.StreamTo`: `readBulk` runs once per collection name
in `this.types`, in order; the value is the full sequence of batches sent
on `dest`, after which the channel is closed (the list ends). -/
def EsConn.StreamTo (types : List String) (docsOf : String → List Bulk)
    (bulkSize : Nat) : List (List Bulk) :=
  (types.map (fun t => EsConn.readBulk (docsOf t) bulkSize)).flatten

/-- Modelled from the spec: claim C3's reading of `StreamTo`, in which a
single Batcher is shared across all collections and flushed exactly once
after all collections are drained, so that a batch may span a collection
boundary. -/
def streamToSharedBatcher (types : List String) (docsOf : String → List Bulk)
    (bulkSize : Nat) : List (List Bulk) :=
  EsConn.readBulk ((types.map docsOf).flatten) bulkSize

lemma EsConn.readBulk_eq_chunkList (docs : List Bulk) (bulkSize : Nat)
    (h : 1 ≤ bulkSize) :
    EsConn.readBulk docs bulkSize = chunkList bulkSize docs := by
  unfold EsConn.readBulk
  have := Batcher.PutAll_flush_chunks docs ⟨[], bulkSize⟩ (by simp; omega)
  simpa using this

/-- C3 counterexample: two collections of one record each with
`bulkSize = 2`.  `EsConn.StreamTo` emits two undersized batches — the
per-collection Batcher is flushed when each collection's cursor is
exhausted — rather than the single spanning batch the claim describes. -/
theorem streamTo_per_collection_flush_counterexample :
    EsConn.StreamTo ["a", "b"]
        (fun t => if t = "a" then [⟨"1", "a", []⟩] else [⟨"2", "b", []⟩]) 2 =
      [[⟨"1", "a", []⟩], [⟨"2", "b", []⟩]] ∧
    streamToSharedBatcher ["a", "b"]
        (fun t => if t = "a" then [⟨"1", "a", []⟩] else [⟨"2", "b", []⟩]) 2 =
      [[⟨"1", "a", []⟩, ⟨"2", "b", []⟩]] ∧
    EsConn.StreamTo ["a", "b"]
        (fun t => if t = "a" then [⟨"1", "a", []⟩] else [⟨"2", "b", []⟩]) 2 ≠
      streamToSharedBatcher ["a", "b"]
        (fun t => if t = "a" then [⟨"1", "a", []⟩] else [⟨"2", "b", []⟩]) 2 := by
  refine ⟨by decide, by decide, by decide⟩

/-- C3 as amended: during `EsConn.StreamTo` each collection gets its own
Batcher, flushed at the end of that collection, so the emitted batch
stream is the concatenation of each collection's records chunked
independently into `bulkSize`-sized batches (last chunk of each
collection possibly undersized); batches therefore never span a
collection boundary; the output channel is closed after all collections
are drained. -/
theorem streamTo_batches_per_collection (types : List String)
    (docsOf : String → List Bulk) (bulkSize : Nat) (h : 1 ≤ bulkSize) :
    EsConn.StreamTo types docsOf bulkSize =
      (types.map (fun t => chunkList bulkSize (docsOf t))).flatten := by
  unfold EsConn.StreamTo
  rw [show (fun t => EsConn.readBulk (docsOf t) bulkSize) =
      (fun t => chunkList bulkSize (docsOf t)) from
    funext (fun t => EsConn.readBulk_eq_chunkList (docsOf t) bulkSize h)]

/-- Witness for `streamTo_batches_per_collection` on two collections with
three and two records at `bulkSize = 2`. -/
theorem streamTo_batches_per_collection_witness :
    1 ≤ 2 ∧
    EsConn.StreamTo ["a", "b"]
        (fun t => if t = "a"
          then [⟨"1", "a", []⟩, ⟨"2", "a", []⟩, ⟨"3", "a", []⟩]
          else [⟨"4", "b", []⟩, ⟨"5", "b", []⟩]) 2 =
      (["a", "b"].map (fun t => chunkList 2 (if t = "a"
          then [⟨"1", "a", []⟩, ⟨"2", "a", []⟩, ⟨"3", "a", []⟩]
          else [⟨"4", "b", []⟩, ⟨"5", "b", []⟩]))).flatten :=
  ⟨by decide,
    streamTo_batches_per_collection ["a", "b"]
      (fun t => if t = "a"
        then [⟨"1", "a", []⟩, ⟨"2", "a", []⟩, ⟨"3", "a", []⟩]
        else [⟨"4", "b", []⟩, ⟨"5", "b", []⟩]) 2 (by decide)⟩

/-- One item of a `_bulk` response body: the `create` object's `_id` and
`status`, as selected by the Go struct tags in `parseBulkFailures`. -/
structure BulkItem where
  Id : String
  status : Int
  deriving Repr, DecidableEq

/-- Parsed `_bulk` response body: the top-level `errors` flag and the
`items` array. -/
structure BulkResp where
  errors : Bool
  items : List BulkItem
  deriving Repr, DecidableEq

/-- Loop body of `parseBulkFailures`: walks the response items and
collects into `fails` the `_id` of every item whose status is 429 or 503;
status 201 is skipped, status 409 (already exists) is deliberately
ignored, and every other non-201 status is logged (`log.Printf`) and not
collected.  The Go `map[string]bool` set is modelled as the list of
collected ids. -/
def bulkFailuresLoop : List BulkItem → List String
  | [] => []
  | item :: rest =>
    (if item.status ≠ 201 then
      if item.status = 429 ∨ item.status = 503 then [item.Id]
      else if item.status = 409 then []
      else []
    else []) ++ bulkFailuresLoop rest

/-- Model of `parseBulkFailures`: the set of `_id`s that failed with a
retriable status, collected only when the response's `errors` flag is
set.  (The JSON-unmarshal error path is a transport-level failure and is
handled at the `Bulk` level.) -/
def parseBulkFailures (resp : BulkResp) : List String :=
  if resp.errors then bulkFailuresLoop resp.items else []

/-- Model of the response-classification half of `EsConn.Bulk`: given the
submitted ops and the parsed bulk response, return the ops whose `_id` is
in the failure set, in submission order — the value `Bulk` returns as
leftover. -/
def EsConn.Bulk (ops : List Bulk) (resp : BulkResp) : List Bulk :=
  let fails := parseBulkFailures resp
  if fails.length > 0 then ops.filter (fun op => fails.contains op.Id) else []

lemma mem_bulkFailuresLoop (items : List BulkItem) (i : String) :
    i ∈ bulkFailuresLoop items ↔
      ∃ it ∈ items, it.Id = i ∧ (it.status = 429 ∨ it.status = 503) := by
  induction items with
  | nil => simp [bulkFailuresLoop]
  | cons it rest ih =>
    simp only [bulkFailuresLoop, List.mem_append, ih, List.mem_cons]
    constructor
    · rintro (hin | ⟨it', hit', hrest⟩)
      · by_cases h201 : it.status ≠ 201
        · rw [if_pos h201] at hin
          by_cases hretry : it.status = 429 ∨ it.status = 503
          · rw [if_pos hretry] at hin
            simp only [List.mem_singleton] at hin
            exact ⟨it, Or.inl rfl, hin.symm, hretry⟩
          · rw [if_neg hretry] at hin
            by_cases h409 : it.status = 409
            · rw [if_pos h409] at hin; simp at hin
            · rw [if_neg h409] at hin; simp at hin
        · rw [if_neg h201] at hin; simp at hin
      · exact ⟨it', Or.inr hit', hrest⟩
    · rintro ⟨it', hit' | hit', hid, hretry⟩
      · subst hit'
        left
        have h201 : it'.status ≠ 201 := by rcases hretry with h | h <;> omega
        rw [if_pos h201, if_pos hretry]
        simp [hid]
      · exact Or.inr ⟨it', hit', hid, hretry⟩

/-- C1: when the per-item statuses are a function of the record id, the
leftover returned by `EsConn.Bulk` is exactly the submitted records whose
status is 429 or 503, and only when the response's `errors` flag is set;
201 and 409 records are never returned, and any other failure status is
logged and dropped (not returned). -/
theorem bulk_leftover_classification (ops : List Bulk) (status : String → Int)
    (errs : Bool) :
    EsConn.Bulk ops ⟨errs, ops.map (fun op => ⟨op.Id, status op.Id⟩)⟩ =
      if errs then
        ops.filter (fun op => status op.Id = 429 ∨ status op.Id = 503)
      else [] := by
  unfold EsConn.Bulk parseBulkFailures
  cases errs with
  | false => simp
  | true =>
    simp only [if_true]
    set fails := bulkFailuresLoop (ops.map (fun op => ⟨op.Id, status op.Id⟩)) with hfails
    have hmem : ∀ op ∈ ops, (fails.contains op.Id = true) ↔
        (status op.Id = 429 ∨ status op.Id = 503) := by
      intro op hop
      rw [List.contains_iff_exists_mem_beq]
      constructor
      · rintro ⟨i, hi, hbeq⟩
        have : op.Id = i := by simpa using hbeq
        subst this
        rw [hfails, mem_bulkFailuresLoop] at hi
        rcases hi with ⟨it, hit, hid, hretry⟩
        simp only [List.mem_map] at hit
        rcases hit with ⟨op', _, rfl⟩
        simp only at hid
        rw [← hid]
        exact hretry
      · intro hretry
        refine ⟨op.Id, ?_, by simp⟩
        rw [hfails, mem_bulkFailuresLoop]
        exact ⟨⟨op.Id, status op.Id⟩, List.mem_map_of_mem _ hop, rfl, hretry⟩
    by_cases hlen : fails.length > 0
    · rw [if_pos hlen]
      apply List.filter_congr
      intro op hop
      have hiff := hmem op hop
      by_cases hr : status op.Id = 429 ∨ status op.Id = 503
      · have hmm : op.Id ∈ fails := by simpa using hiff.mpr hr
        simp [hmm, hr]
      · have hcf : fails.contains op.Id ≠ true := fun hcon => hr (hiff.mp hcon)
        simp only [Bool.not_eq_true] at hcf
        have hmm : op.Id ∉ fails := by simpa using hcf
        simp [hmm, hr]
    · rw [if_neg hlen]
      push_neg at hlen
      have hnil : fails = [] := List.length_eq_zero.mp (Nat.le_zero.mp hlen)
      symm
      rw [List.filter_eq_nil_iff]
      intro op hop
      simp only [decide_eq_true_eq]
      intro hretry
      have := (hmem op hop).mpr hretry
      rw [hnil] at this
      simp at this

/-- Bulk response the destination produces for one submission, judged by
a per-id status function: one `create` item per submitted op, and the
`errors` flag set iff some item's status is not 201 (as ES sets it). -/
def mkBulkResp (status : String → Int) (ops : List Bulk) : BulkResp :=
  { errors := ops.any (fun op => status op.Id != 201),
    items := ops.map (fun op => ⟨op.Id, status op.Id⟩) }

/-- Ghost accounting of one `AcceptFrom` worker: the records acknowledged
as delivered (status 201, or duplicate 409 treated as success), the
records logged and dropped (any other non-retriable status), and the
worker's current `leftover`.  The Go worker keeps only `leftover`;
`delivered`/`dropped` record what the classification in
`parseBulkFailures` acknowledged or logged. -/
structure WorkerState where
  delivered : List Bulk
  dropped : List Bulk
  leftover : List Bulk
  deriving Repr, DecidableEq

/-- One bulk submission of `ops`: the new `leftover` is exactly what
`EsConn.Bulk` returns for the response, and the accounting lists grow by
the delivered (201/409) and dropped (other non-retriable) records. -/
def submitRound (status : String → Int) (st : WorkerState) (ops : List Bulk) :
    WorkerState :=
  { delivered := st.delivered ++
      ops.filter (fun op => status op.Id == 201 || status op.Id == 409),
    dropped := st.dropped ++
      ops.filter (fun op =>
        !(status op.Id == 201 || status op.Id == 409) &&
        !(status op.Id == 429 || status op.Id == 503)),
    leftover := EsConn.Bulk ops (mkBulkResp status ops) }

/-- Worker channel loop of `EsConn.AcceptFrom`: for each batch received
from the channel, merge the previous round's leftover
(`batch = append(batch, leftover...)`) and submit; `statuses round`
judges the round-th submission of this worker. -/
def workerChannelLoop (statuses : Nat → String → Int) :
    Nat → List (List Bulk) → WorkerState → WorkerState
  | _, [], st => st
  | round, batch :: rest, st =>
    workerChannelLoop statuses (round + 1) rest
      (submitRound (statuses round) st (batch ++ st.leftover))

/-- Worker drain loop: once the channel has closed, keep re-submitting
the leftover (without waiting for new batches) until it is empty.  The
Go loop is unbounded; `fuel` bounds the modelled execution and `none`
means the loop was still running when the fuel ran out. -/
def workerDrainLoop (statuses : Nat → String → Int) :
    Nat → Nat → WorkerState → Option WorkerState
  | 0, _, st => if st.leftover = [] then some st else none
  | fuel + 1, round, st =>
    if st.leftover = [] then some st
    else workerDrainLoop statuses fuel (round + 1)
      (submitRound (statuses round) st st.leftover)

/-- One full worker: channel loop over its batches, then the drain loop,
then `group.Done()`.  `some` means the worker terminated. -/
def workerRun (statuses : Nat → String → Int) (fuel : Nat)
    (batches : List (List Bulk)) : Option WorkerState :=
  workerDrainLoop statuses fuel batches.length
    (workerChannelLoop statuses 0 batches ⟨[], [], []⟩)

/-- Workers of `EsConn.AcceptFrom`: `parts` assigns to every worker the
batches that worker receives from the shared channel, and `statusesOf i`
is worker `i`'s view of the destination's answers.  `group.Wait()`
returns only when every worker has called `group.Done()`, so the result
is `some` exactly when every worker's run is. -/
def acceptFromWorkers (statusesOf : Nat → Nat → String → Int) (fuel : Nat) :
    List (List (List Bulk)) → Nat → Option (List WorkerState)
  | [], _ => some []
  | part :: rest, i => do
    let st ← workerRun (statusesOf i) fuel part
    let sts ← acceptFromWorkers statusesOf fuel rest (i + 1)
    pure (st :: sts)

/-- Batch type: what travels on the `chan []Bulk` channel (named so that
the record type `Bulk` is not shadowed by the method `EsConn.Bulk` inside
the `EsConn` namespace). -/
abbrev BulkBatch : Type := List Bulk

/-- Model of `EsConn.AcceptFrom` on the per-record status level (hard
transport errors, which panic, are modelled separately below). -/
def EsConn.AcceptFrom (statusesOf : Nat → Nat → String → Int) (fuel : Nat)
    (parts : List (List BulkBatch)) : Option (List WorkerState) :=
  acceptFromWorkers statusesOf fuel parts 0

lemma mem_bulk_leftover_of_retry (status : String → Int) (ops : List Bulk)
    (r : Bulk) (hr : r ∈ ops)
    (hretry : status r.Id = 429 ∨ status r.Id = 503) :
    r ∈ EsConn.Bulk ops (mkBulkResp status ops) := by
  unfold EsConn.Bulk mkBulkResp parseBulkFailures
  dsimp only
  have herr : ops.any (fun op => status op.Id != 201) = true := by
    rw [List.any_eq_true]
    refine ⟨r, hr, ?_⟩
    rcases hretry with h | h <;> simp [h]
  rw [herr]
  simp only [if_true]
  have hidmem : r.Id ∈ bulkFailuresLoop (ops.map (fun op => ⟨op.Id, status op.Id⟩)) := by
    rw [mem_bulkFailuresLoop]
    exact ⟨⟨r.Id, status r.Id⟩, List.mem_map_of_mem _ hr, rfl, hretry⟩
  have hlen : (bulkFailuresLoop (ops.map (fun op => ⟨op.Id, status op.Id⟩))).length > 0 :=
    List.length_pos.mpr (List.ne_nil_of_mem hidmem)
  rw [if_pos hlen]
  rw [List.mem_filter]
  exact ⟨hr, by simpa using hidmem⟩

lemma submitRound_covers (status : String → Int) (st : WorkerState)
    (ops : List Bulk) (r : Bulk) (hr : r ∈ ops) :
    r ∈ (submitRound status st ops).delivered ∨
    r ∈ (submitRound status st ops).dropped ∨
    r ∈ (submitRound status st ops).leftover := by
  unfold submitRound
  dsimp only
  by_cases hsucc : status r.Id = 201 ∨ status r.Id = 409
  · left
    rw [List.mem_append]
    right
    rw [List.mem_filter]
    exact ⟨hr, by rcases hsucc with h | h <;> simp [h]⟩
  · by_cases hretry : status r.Id = 429 ∨ status r.Id = 503
    · right; right
      exact mem_bulk_leftover_of_retry status ops r hr hretry
    · right; left
      rw [List.mem_append]
      right
      rw [List.mem_filter]
      push_neg at hsucc hretry
      exact ⟨hr, by simp [hsucc.1, hsucc.2, hretry.1, hretry.2]⟩

lemma submitRound_mono (status : String → Int) (st : WorkerState)
    (ops : List Bulk) :
    (∀ r ∈ st.delivered, r ∈ (submitRound status st ops).delivered) ∧
    (∀ r ∈ st.dropped, r ∈ (submitRound status st ops).dropped) := by
  unfold submitRound
  constructor <;> intro r hr <;> exact List.mem_append_left _ hr

lemma workerChannelLoop_mono (statuses : Nat → String → Int)
    (batches : List (List Bulk)) :
    ∀ round st,
      (∀ r ∈ st.delivered, r ∈ (workerChannelLoop statuses round batches st).delivered) ∧
      (∀ r ∈ st.dropped, r ∈ (workerChannelLoop statuses round batches st).dropped) := by
  induction batches with
  | nil => intro round st; exact ⟨fun r hr => hr, fun r hr => hr⟩
  | cons batch rest ih =>
    intro round st
    constructor <;> intro r hr
    · exact (ih (round + 1) _).1 r
        ((submitRound_mono (statuses round) st (batch ++ st.leftover)).1 r hr)
    · exact (ih (round + 1) _).2 r
        ((submitRound_mono (statuses round) st (batch ++ st.leftover)).2 r hr)

lemma workerChannelLoop_covers (statuses : Nat → String → Int)
    (batches : List (List Bulk)) :
    ∀ round st r, ((∃ b ∈ batches, r ∈ b) ∨ r ∈ st.leftover) →
      r ∈ (workerChannelLoop statuses round batches st).delivered ∨
      r ∈ (workerChannelLoop statuses round batches st).dropped ∨
      r ∈ (workerChannelLoop statuses round batches st).leftover := by
  induction batches with
  | nil =>
    intro round st r hmem
    rcases hmem with ⟨b, hb, _⟩ | hmem
    · simp at hb
    · right; right; exact hmem
  | cons batch rest ih =>
    intro round st r hmem
    have hnow : r ∈ batch ++ st.leftover ∨ (∃ b ∈ rest, r ∈ b) := by
      rcases hmem with ⟨b, hb, hrb⟩ | hmem
      · rcases List.mem_cons.mp hb with rfl | hb
        · exact Or.inl (List.mem_append_left _ hrb)
        · exact Or.inr ⟨b, hb, hrb⟩
      · exact Or.inl (List.mem_append_right _ hmem)
    rcases hnow with hnow | hlater
    · rcases submitRound_covers (statuses round) st (batch ++ st.leftover) r hnow
        with hdel | hdrop | hleft
      · left
        exact (workerChannelLoop_mono statuses rest (round + 1) _).1 r hdel
      · right; left
        exact (workerChannelLoop_mono statuses rest (round + 1) _).2 r hdrop
      · exact ih (round + 1) _ r (Or.inr hleft)
    · exact ih (round + 1) _ r (Or.inl hlater)

lemma workerDrainLoop_some (statuses : Nat → String → Int) :
    ∀ fuel round st st',
      workerDrainLoop statuses fuel round st = some st' →
      st'.leftover = [] ∧
      (∀ r ∈ st.delivered, r ∈ st'.delivered) ∧
      (∀ r ∈ st.dropped, r ∈ st'.dropped) ∧
      (∀ r ∈ st.leftover, r ∈ st'.delivered ∨ r ∈ st'.dropped) := by
  intro fuel
  induction fuel with
  | zero =>
    intro round st st' h
    unfold workerDrainLoop at h
    by_cases hl : st.leftover = []
    · rw [if_pos hl] at h
      cases h
      refine ⟨hl, fun r hr => hr, fun r hr => hr, ?_⟩
      intro r hr
      rw [hl] at hr
      simp at hr
    · rw [if_neg hl] at h
      cases h
  | succ fuel ih =>
    intro round st st' h
    unfold workerDrainLoop at h
    by_cases hl : st.leftover = []
    · rw [if_pos hl] at h
      cases h
      refine ⟨hl, fun r hr => hr, fun r hr => hr, ?_⟩
      intro r hr
      rw [hl] at hr
      simp at hr
    · rw [if_neg hl] at h
      have hrec := ih (round + 1) (submitRound (statuses round) st st.leftover) st' h
      refine ⟨hrec.1, ?_, ?_, ?_⟩
      · intro r hr
        exact hrec.2.1 r ((submitRound_mono (statuses round) st st.leftover).1 r hr)
      · intro r hr
        exact hrec.2.2.1 r ((submitRound_mono (statuses round) st st.leftover).2 r hr)
      · intro r hr
        rcases submitRound_covers (statuses round) st st.leftover r hr
          with hdel | hdrop | hleft
        · exact Or.inl (hrec.2.1 r hdel)
        · exact Or.inr (hrec.2.2.1 r hdrop)
        · rcases hrec.2.2.2 r hleft with h1 | h1
          · exact Or.inl h1
          · exact Or.inr h1

lemma workerRun_terminal (statuses : Nat → String → Int) (fuel : Nat)
    (batches : List (List Bulk)) (st' : WorkerState)
    (h : workerRun statuses fuel batches = some st') :
    st'.leftover = [] ∧
    ∀ r, (∃ b ∈ batches, r ∈ b) → r ∈ st'.delivered ∨ r ∈ st'.dropped := by
  unfold workerRun at h
  have hdrain := workerDrainLoop_some statuses fuel batches.length _ st' h
  refine ⟨hdrain.1, ?_⟩
  intro r hr
  rcases workerChannelLoop_covers statuses batches 0 ⟨[], [], []⟩ r (Or.inl hr)
    with hdel | hdrop | hleft
  · exact Or.inl (hdrain.2.1 r hdel)
  · exact Or.inr (hdrain.2.2.1 r hdrop)
  · exact hdrain.2.2.2 r hleft

lemma acceptFromWorkers_forall (statusesOf : Nat → Nat → String → Int)
    (fuel : Nat) :
    ∀ parts i sts, acceptFromWorkers statusesOf fuel parts i = some sts →
      List.Forall₂ (fun part st => st.leftover = [] ∧
        ∀ r, (∃ b ∈ part, r ∈ b) →
          r ∈ WorkerState.delivered st ∨ r ∈ WorkerState.dropped st) parts sts := by
  intro parts
  induction parts with
  | nil =>
    intro i sts h
    unfold acceptFromWorkers at h
    cases h
    exact List.Forall₂.nil
  | cons part rest ih =>
    intro i sts h
    unfold acceptFromWorkers at h
    cases hw : workerRun (statusesOf i) fuel part with
    | none => rw [hw] at h; cases h
    | some st =>
      rw [hw] at h
      cases hrest : acceptFromWorkers statusesOf fuel rest (i + 1) with
      | none => rw [hrest] at h; cases h
      | some sts' =>
        rw [hrest] at h
        simp only [Option.bind_eq_bind, Option.some_bind] at h
        cases h
        exact List.Forall₂.cons (workerRun_terminal _ fuel part st hw) (ih (i + 1) sts' hrest)

/-- C2: when `EsConn.AcceptFrom` returns (every worker's channel loop has
consumed its batches after the channel closed and every worker's drain
loop has re-submitted its leftover until empty), each worker's leftover
is empty and every record that worker pulled from the channel is
accounted either delivered (success or duplicate) or dropped with a log
entry — never silently lost. -/
theorem acceptFrom_drains_leftover_and_accounts
    (statusesOf : Nat → Nat → String → Int) (fuel : Nat)
    (parts : List (List (List Bulk))) (sts : List WorkerState)
    (h : EsConn.AcceptFrom statusesOf fuel parts = some sts) :
    List.Forall₂ (fun part st => st.leftover = [] ∧
      ∀ r, (∃ b ∈ part, r ∈ b) →
        r ∈ WorkerState.delivered st ∨ r ∈ WorkerState.dropped st) parts sts :=
  acceptFromWorkers_forall statusesOf fuel parts 0 sts h

/-- Witness for `acceptFrom_drains_leftover_and_accounts`: one worker and
one batch holding one record that is rate-limited (429) on the first
submission and accepted (201) when the leftover is re-submitted during
the drain loop. -/
theorem acceptFrom_drains_leftover_and_accounts_witness :
    EsConn.AcceptFrom (fun _i round _id => if round = 0 then 429 else 201) 2
        [[[⟨"1", "t", []⟩]]] =
      some [⟨[⟨"1", "t", []⟩], [], []⟩] ∧
    List.Forall₂ (fun part st => st.leftover = [] ∧
      ∀ r, (∃ b ∈ part, r ∈ b) →
        r ∈ WorkerState.delivered st ∨ r ∈ WorkerState.dropped st)
      [[[⟨"1", "t", []⟩]]] [⟨[⟨"1", "t", []⟩], [], []⟩] :=
  ⟨by decide,
    acceptFrom_drains_leftover_and_accounts
      (fun _i round _id => if round = 0 then 429 else 201) 2
      [[[⟨"1", "t", []⟩]]] [⟨[⟨"1", "t", []⟩], [], []⟩] (by decide)⟩

/-- Transport-aware result of one `EsConn.Bulk` call: a hard
transport/connection error from `readRequest` (or a response-unmarshal
failure) makes `Bulk` return a non-nil `err` with a nil leftover — no
per-record classification happens in that case. -/
def EsConn.BulkE (ops : BulkBatch) (transport : Except String BulkResp) :
    Except String BulkBatch :=
  match transport with
  | .error e => .error e
  | .ok resp => .ok (EsConn.Bulk ops resp)

/-- Outcome of one `AcceptFrom` worker goroutine in the transport-aware
model: it reaches `group.Done()`, or it executes `panic(err)` (which
kills the whole process), or its unbounded drain loop is still running
when the modelling fuel runs out. -/
inductive WorkerOutcome where
  | done : WorkerOutcome
  | panicked (e : String) : WorkerOutcome
  | outOfFuel : WorkerOutcome
  deriving Repr, DecidableEq

/-- Channel loop of one worker, transport-aware: on a hard error the Go
worker does `panic(err)` immediately, with no leftover bookkeeping for
the submitted batch. -/
def workerChannelLoopE (oracle : Nat → BulkBatch → Except String BulkResp) :
    Nat → List BulkBatch → BulkBatch → Except String BulkBatch
  | _, [], leftover => .ok leftover
  | round, batch :: rest, leftover =>
    match EsConn.BulkE (batch ++ leftover) (oracle round (batch ++ leftover)) with
    | .error e => .error e
    | .ok left2 => workerChannelLoopE oracle (round + 1) rest left2

/-- Drain loop of one worker, transport-aware. -/
def workerDrainLoopE (oracle : Nat → BulkBatch → Except String BulkResp) :
    Nat → Nat → BulkBatch → WorkerOutcome
  | 0, _, leftover => if leftover = [] then .done else .outOfFuel
  | fuel + 1, round, leftover =>
    if leftover = [] then .done
    else
      match EsConn.BulkE leftover (oracle round leftover) with
      | .error e => .panicked e
      | .ok left2 => workerDrainLoopE oracle fuel (round + 1) left2

/-- One full worker in the transport-aware model. -/
def workerRunE (oracle : Nat → BulkBatch → Except String BulkResp)
    (fuel : Nat) (batches : List BulkBatch) : WorkerOutcome :=
  match workerChannelLoopE oracle 0 batches [] with
  | .error e => .panicked e
  | .ok leftover => workerDrainLoopE oracle fuel batches.length leftover

/-- Process-level outcome of `AcceptFrom` in the transport-aware model:
`returned` is the normal return after `group.Wait()` (with `err = nil` on
this path); `aborted e` means some worker panicked, which terminates the
whole process — `AcceptFrom` never returns in that case; `hung` means
some worker was still draining at the fuel bound. -/
inductive AcceptOutcome where
  | returned : AcceptOutcome
  | aborted (e : String) : AcceptOutcome
  | hung : AcceptOutcome
  deriving Repr, DecidableEq

/-- True exactly when `AcceptFrom` returns normally to its caller. -/
def AcceptOutcome.isReturned : AcceptOutcome → Bool
  | .returned => true
  | _ => false

/-- Worker pool of `AcceptFrom`, transport-aware: a panic in any worker
goroutine aborts the process (workers are scanned in order). -/
def acceptFromWorkersE (oracleOf : Nat → Nat → BulkBatch → Except String BulkResp)
    (fuel : Nat) : List (List BulkBatch) → Nat → AcceptOutcome
  | [], _ => .returned
  | part :: rest, i =>
    match workerRunE (oracleOf i) fuel part with
    | .panicked e => .aborted e
    | .outOfFuel => .hung
    | .done => acceptFromWorkersE oracleOf fuel rest (i + 1)

/-- Model of `EsConn.AcceptFrom` in the transport-aware view. -/
def EsConn.AcceptFromE (oracleOf : Nat → Nat → BulkBatch → Except String BulkResp)
    (fuel : Nat) (parts : List (List BulkBatch)) : AcceptOutcome :=
  acceptFromWorkersE oracleOf fuel parts 0

/-- C7 counterexample: a hard transport error on the very first bulk
submission.  The worker's `panic(err)` kills the whole process, so
`AcceptFrom` aborts — but it never returns, so the error is not surfaced
as `AcceptFrom`'s return value to the Orchestrator, contrary to the
claim's second half. -/
theorem acceptFrom_transport_error_counterexample :
    EsConn.AcceptFromE (fun _i _round _ops => .error "connection refused") 1
        [[[⟨"1", "t", []⟩]]] = .aborted "connection refused" ∧
    (EsConn.AcceptFromE (fun _i _round _ops => .error "connection refused") 1
        [[[⟨"1", "t", []⟩]]]).isReturned = false :=
  ⟨by decide, by decide⟩

/-- C7 as amended: a hard transport/connection error makes the worker
panic, aborting the entire process immediately — with no per-record
leftover bookkeeping for that batch (`Bulk` propagates the error without
classifying records) — and the error surfaces as a process abort, not as
`AcceptFrom`'s return value: `AcceptFrom` never returns normally in that
case. -/
theorem acceptFrom_transport_error_aborts
    (oracleOf : Nat → Nat → BulkBatch → Except String BulkResp) (fuel : Nat)
    (part : List BulkBatch) (parts : List (List BulkBatch)) (e : String)
    (ops : BulkBatch)
    (h : workerRunE (oracleOf 0) fuel part = .panicked e) :
    EsConn.AcceptFromE oracleOf fuel (part :: parts) = .aborted e ∧
    (EsConn.AcceptFromE oracleOf fuel (part :: parts)).isReturned = false ∧
    EsConn.BulkE ops (.error e) = .error e := by
  unfold EsConn.AcceptFromE acceptFromWorkersE
  rw [h]
  exact ⟨rfl, rfl, rfl⟩

/-- Witness for `acceptFrom_transport_error_aborts`: the destination
refuses the connection on the first submission. -/
theorem acceptFrom_transport_error_aborts_witness :
    workerRunE (fun _round _ops => .error "boom") 1 [[⟨"1", "t", []⟩]] =
      .panicked "boom" ∧
    (EsConn.AcceptFromE (fun _i _round _ops => .error "boom") 1
        [[[⟨"1", "t", []⟩]]] = .aborted "boom" ∧
    (EsConn.AcceptFromE (fun _i _round _ops => .error "boom") 1
        [[[⟨"1", "t", []⟩]]]).isReturned = false ∧
    EsConn.BulkE [⟨"1", "t", []⟩] (.error "boom") = .error "boom") :=
  ⟨by decide,
    acceptFrom_transport_error_aborts (fun _i _round _ops => .error "boom") 1
      [[⟨"1", "t", []⟩]] [] "boom" [⟨"1", "t", []⟩] (by decide)⟩

/-- JSON value, used for everything the Go code unmarshals with
`encoding/json`.  Objects keep their fields as an ordered association
list.  (Key-sorting on re-marshalling of Go maps and the nil/empty map
distinction are not modelled; no claim below depends on them.) -/
inductive Json where
  | null : Json
  | str (s : String) : Json
  | num (n : Int) : Json
  | jsonBool (b : Bool) : Json
  | arr (xs : List Json) : Json
  | obj (fields : List (String × Json)) : Json
  deriving Repr

/-- Lookup of a key among a JSON object's fields (first match). -/
def lookupField (fields : List (String × Json)) (k : String) : Option Json :=
  (fields.find? (fun kv => kv.1 == k)).map (fun kv => kv.2)

/-- Field access on a JSON value (none when it is not an object). -/
def jsonGetField (j : Json) (k : String) : Option Json :=
  match j with
  | .obj fields => lookupField fields k
  | _ => none

/-- The inner struct of `IndexSettings` in the Go sources (the typed view
of `settings.index`): `number_of_shards` and `number_of_replicas` are Go
strings, the other seven fields have interface type (`Any`) and are kept
opaque. -/
structure SettingsInner where
  Cache : Json
  NumShards : String
  NumRepls : String
  Refresh : Json
  Similarity : Json
  Analysis : Json
  TransLog : Json
  Uuid : Json
  Version : Json
  deriving Repr

/-- Zero value of `SettingsInner` (Go zero struct: nil interfaces and
empty strings). -/
def zeroSettingsInner : SettingsInner :=
  ⟨.null, "", "", .null, .null, .null, .null, .null, .null⟩

/-- The `IndexSettings` struct: the single json-tagged field `index`. -/
structure IndexSettings where
  Index : SettingsInner
  deriving Repr

/-- The `Index` metadata struct of the Go sources; the `map[string]Any`
fields are modelled as association lists of opaque JSON values. -/
structure Index where
  Aliases : List (String × Json)
  Mappings : List (String × Json)
  Settings : IndexSettings
  Warmers : List (String × Json)
  deriving Repr

/-- Zero value of `Index`. -/
def zeroIndex : Index := ⟨[], [], ⟨zeroSettingsInner⟩, []⟩

/-- Go `encoding/json` unmarshalling into a struct field of type
`string`: an absent key or JSON null leaves the zero value `""`, a JSON
string is taken verbatim, any other value is a type error. -/
def unmarshalStringField : Option Json → Option String
  | none => some ""
  | some .null => some ""
  | some (.str s) => some s
  | some _ => none

/-- Go unmarshalling into a field of interface type: absent key or null
leave nil (which re-marshals as null); any JSON value is kept verbatim. -/
def unmarshalAnyField : Option Json → Json
  | none => .null
  | some v => v

/-- Go unmarshalling into a `map[string]Any` field. -/
def unmarshalStrMap : Option Json → Option (List (String × Json))
  | none => some []
  | some .null => some []
  | some (.obj fields) => some fields
  | some _ => none

/-- Go unmarshalling of the `settings.index` object into `SettingsInner`:
the nine tagged fields are read; every other key of the object is
discarded (`encoding/json` ignores unknown keys). -/
def unmarshalSettingsInner : Option Json → Option SettingsInner
  | none => some zeroSettingsInner
  | some .null => some zeroSettingsInner
  | some (.obj fields) =>
    match unmarshalStringField (lookupField fields "number_of_shards"),
        unmarshalStringField (lookupField fields "number_of_replicas") with
    | some sh, some rp =>
      some { Cache := unmarshalAnyField (lookupField fields "cache"),
             NumShards := sh, NumRepls := rp,
             Refresh := unmarshalAnyField (lookupField fields "refresh_interval"),
             Similarity := unmarshalAnyField (lookupField fields "similarity"),
             Analysis := unmarshalAnyField (lookupField fields "analysis"),
             TransLog := unmarshalAnyField (lookupField fields "translog"),
             Uuid := unmarshalAnyField (lookupField fields "uuid"),
             Version := unmarshalAnyField (lookupField fields "version") }
    | _, _ => none
  | some _ => none

/-- Go unmarshalling of the `settings` object into `IndexSettings`. -/
def unmarshalIndexSettings : Option Json → Option IndexSettings
  | none => some ⟨zeroSettingsInner⟩
  | some .null => some ⟨zeroSettingsInner⟩
  | some (.obj fields) =>
    (unmarshalSettingsInner (lookupField fields "index")).map IndexSettings.mk
  | some _ => none

/-- Go unmarshalling of one index-metadata value into `Index`. -/
def unmarshalIndex (j : Json) : Option Index :=
  match j with
  | .null => some zeroIndex
  | .obj fields =>
    match unmarshalStrMap (lookupField fields "aliases"),
        unmarshalStrMap (lookupField fields "mappings"),
        unmarshalIndexSettings (lookupField fields "settings"),
        unmarshalStrMap (lookupField fields "warmers") with
    | some al, some mp, some st, some wm => some ⟨al, mp, st, wm⟩
    | _, _, _, _ => none
  | _ => none

/-- Go unmarshalling of the entries of the top-level metadata object into
`map[string]Index` entries, failing if any value fails. -/
def unmarshalMetaEntries : List (String × Json) → Option (List (String × Index))
  | [] => some []
  | kv :: rest =>
    match unmarshalIndex kv.2, unmarshalMetaEntries rest with
    | some ix, some m => some ((kv.1, ix) :: m)
    | _, _ => none

/-- Go unmarshalling of the metadata blob into `map[string]Index`.  (A
JSON object with duplicate keys is pathological: Go's map keeps the last
occurrence, while this model keeps all entries; theorems that depend on
the key arrangement carry a no-duplicate-keys hypothesis.) -/
def unmarshalMeta (j : Json) : Option (List (String × Index)) :=
  match j with
  | .null => some []
  | .obj fields => unmarshalMetaEntries fields
  | _ => none

/-- Go `json.Marshal` of `SettingsInner` (struct fields in declaration
order). -/
def marshalSettingsInner (s : SettingsInner) : Json :=
  .obj [("cache", s.Cache), ("number_of_shards", .str s.NumShards),
        ("number_of_replicas", .str s.NumRepls),
        ("refresh_interval", s.Refresh), ("similarity", s.Similarity),
        ("analysis", s.Analysis), ("translog", s.TransLog),
        ("uuid", s.Uuid), ("version", s.Version)]

/-- Go `json.Marshal` of `IndexSettings`. -/
def marshalIndexSettings (s : IndexSettings) : Json :=
  .obj [("index", marshalSettingsInner s.Index)]

/-- Go `json.Marshal` of `Index`. -/
def marshalIndex (ix : Index) : Json :=
  .obj [("aliases", .obj ix.Aliases), ("mappings", .obj ix.Mappings),
        ("settings", marshalIndexSettings ix.Settings),
        ("warmers", .obj ix.Warmers)]

/-- Go `json.Marshal` of the whole `map[string]Index`. -/
def marshalMeta (m : List (String × Index)) : Json :=
  .obj (m.map (fun kv => (kv.1, marshalIndex kv.2)))

/-- Go map read `meta[k]` (a missing key yields the zero `Index`). -/
def mapLookupIndex (m : List (String × Index)) (k : String) : Index :=
  ((m.find? (fun kv => kv.1 == k)).map (fun kv => kv.2)).getD zeroIndex

/-- Go map write `meta[k] = v`. -/
def mapStoreIndex (m : List (String × Index)) (k : String) (v : Index) :
    List (String × Index) :=
  if (m.find? (fun kv => kv.1 == k)).isSome then
    m.map (fun kv => if kv.1 == k then (k, v) else kv)
  else m ++ [(k, v)]

/-- The `for k := range meta` idiom of `GetIndex`/`PutIndex`: the key
left in the variable after iterating all keys.  Go's map iteration order
is unspecified; the model iterates in list order, so this is the last
key, and `""` for an empty map. -/
def lastKeyName (m : List (String × Index)) : String :=
  ((m.map Prod.fst).getLast?).getD ""

/-- Model of `EsConn.GetIndex` (part_002 version): unmarshal the response
body into `map[string]Index`, pick the index name by map iteration,
clear the aliases of the selected entry, store it back, and re-marshal
the whole map.  The HTTP read and the fatal log on status ≥ 400 are
transport concerns outside this model; the metadata string the method
returns is modelled as the marshalled JSON value, and the `this.types`
side effect does not affect the returned value. -/
def EsConn.GetIndex (body : Json) : Option Json :=
  match unmarshalMeta body with
  | none => none
  | some meta =>
    let indexName := lastKeyName meta
    let metaVal := mapLookupIndex meta indexName
    let metaVal := { metaVal with Aliases := [] }
    some (marshalMeta (mapStoreIndex meta indexName metaVal))

/-- Model of `EsConn.PutIndex` (part_002 version): unmarshal the metadata
blob, pick the old index name by map iteration (`this.types` is refilled
from the mappings as connection state, not part of the written payload),
clear all aliases, set `number_of_replicas` when `repls >= 0` and — as
the code is written — set `number_of_shards` also under the `repls >= 0`
test, then marshal the selected `Index` value (without its name wrapper)
as the PUT body, which this model returns. -/
def EsConn.PutIndex (metaJson : Json) (repls shards : Int) : Option Json :=
  match unmarshalMeta metaJson with
  | none => none
  | some meta =>
    let oldIndexName := lastKeyName meta
    let metaVal := mapLookupIndex meta oldIndexName
    let metaVal := { metaVal with Aliases := [] }
    let metaVal := if repls ≥ 0
      then { metaVal with Settings.Index.NumRepls := toString repls }
      else metaVal
    let metaVal := if repls ≥ 0
      then { metaVal with Settings.Index.NumShards := toString shards }
      else metaVal
    some (marshalIndex metaVal)

/-- Value of `settings.index.number_of_shards` inside a written body. -/
def writtenShards (b : Option Json) : Option Json :=
  ((b.bind (fun j => jsonGetField j "settings")).bind
    (fun j => jsonGetField j "index")).bind
    (fun j => jsonGetField j "number_of_shards")

/-- Value of `settings.index.number_of_replicas` inside a written body. -/
def writtenRepls (b : Option Json) : Option Json :=
  ((b.bind (fun j => jsonGetField j "settings")).bind
    (fun j => jsonGetField j "index")).bind
    (fun j => jsonGetField j "number_of_replicas")

/-- C6 failing input: source metadata with `number_of_shards` "5" and
`number_of_replicas` "2". -/
def c6meta : Json :=
  .obj [("idx", .obj [("settings", .obj [("index", .obj
    [("number_of_shards", Json.str "5"),
     ("number_of_replicas", Json.str "2")])])])]

/-- C6: the Go code guards the shard override with `repls >= 0` instead
of `shards >= 0` (a copy-pasted condition).  With `repls = -1,
shards = 3` the requested shard override is silently ignored; with
`repls = 0, shards = -1` the written metadata gets the nonsensical
`number_of_shards = "-1"` even though no shard override was requested. -/
theorem putIndex_shard_override_guarded_by_repls :
    writtenShards (EsConn.PutIndex c6meta (-1) 3) = some (.str "5") ∧
    writtenRepls (EsConn.PutIndex c6meta (-1) 3) = some (.str "2") ∧
    writtenShards (EsConn.PutIndex c6meta 0 (-1)) = some (.str "-1") ∧
    writtenRepls (EsConn.PutIndex c6meta 0 (-1)) = some (.str "0") :=
  ⟨rfl, rfl, rfl, rfl⟩

/-- C9 counterexample: `PutIndex` does not fail loudly on metadata with
zero or multiple top-level keys.  On the empty object it writes the
marshalled zero `Index`; on a two-key object it silently behaves exactly
as if only the last-iterated key were present. -/
theorem putIndex_no_key_count_validation :
    (EsConn.PutIndex (Json.obj []) (-1) (-1)).isSome = true ∧
    EsConn.PutIndex (Json.obj []) (-1) (-1) = some (marshalIndex zeroIndex) ∧
    EsConn.PutIndex (Json.obj [("a", Json.obj []),
        ("b", Json.obj [("settings", Json.obj [("index", Json.obj
          [("number_of_shards", Json.str "7"),
           ("number_of_replicas", Json.str "1")])])])]) (-1) (-1) =
      EsConn.PutIndex (Json.obj [("b", Json.obj [("settings", Json.obj
        [("index", Json.obj [("number_of_shards", Json.str "7"),
          ("number_of_replicas", Json.str "1")])])])]) (-1) (-1) ∧
    (EsConn.PutIndex (Json.obj [("a", Json.obj []),
        ("b", Json.obj [("settings", Json.obj [("index", Json.obj
          [("number_of_shards", Json.str "7"),
           ("number_of_replicas", Json.str "1")])])])]) (-1) (-1)).isSome
      = true :=
  ⟨rfl, rfl, rfl, rfl⟩

lemma unmarshalMetaEntries_keys (fields : List (String × Json))
    (meta : List (String × Index))
    (h : unmarshalMetaEntries fields = some meta) :
    meta.map Prod.fst = fields.map Prod.fst := by
  induction fields generalizing meta with
  | nil =>
    unfold unmarshalMetaEntries at h
    cases h
    rfl
  | cons kv rest ih =>
    unfold unmarshalMetaEntries at h
    cases hix : unmarshalIndex kv.2 with
    | none => rw [hix] at h; cases h
    | some ix =>
      rw [hix] at h
      cases hrest : unmarshalMetaEntries rest with
      | none => rw [hrest] at h; cases h
      | some m =>
        rw [hrest] at h
        cases h
        simp only [List.map_cons]
        rw [ih m hrest]

lemma unmarshalMetaEntries_append_singleton (init : List (String × Json))
    (last : String × Json) (meta : List (String × Index))
    (h : unmarshalMetaEntries (init ++ [last]) = some meta) :
    ∃ m1 ix, unmarshalMetaEntries init = some m1 ∧
      unmarshalIndex last.2 = some ix ∧ meta = m1 ++ [(last.1, ix)] := by
  induction init generalizing meta with
  | nil =>
    simp only [List.nil_append] at h
    unfold unmarshalMetaEntries at h
    cases hix : unmarshalIndex last.2 with
    | none => rw [hix] at h; cases h
    | some ix =>
      rw [hix] at h
      cases h
      exact ⟨[], ix, rfl, rfl, rfl⟩
  | cons kv rest ih =>
    rw [List.cons_append] at h
    unfold unmarshalMetaEntries at h
    cases hix : unmarshalIndex kv.2 with
    | none => rw [hix] at h; cases h
    | some ix0 =>
      rw [hix] at h
      cases hrest : unmarshalMetaEntries (rest ++ [last]) with
      | none => rw [hrest] at h; cases h
      | some m =>
        rw [hrest] at h
        cases h
        obtain ⟨m1, ix, hm1, hixl, rfl⟩ := ih m hrest
        refine ⟨(kv.1, ix0) :: m1, ix, ?_, hixl, rfl⟩
        unfold unmarshalMetaEntries
        rw [hix, hm1]

lemma find?_append_of_none {α : Type} (l1 l2 : List α) (p : α → Bool)
    (h : l1.find? p = none) : (l1 ++ l2).find? p = l2.find? p := by
  induction l1 with
  | nil => rfl
  | cons a rest ih =>
    by_cases hp : p a
    · rw [List.find?_cons_of_pos _ hp] at h
      cases h
    · rw [List.find?_cons_of_neg _ hp] at h
      rw [List.cons_append, List.find?_cons_of_neg _ hp]
      exact ih h

/-- C9 as amended: `PutIndex` performs no key-count validation at all.
On zero keys it succeeds and writes the marshalled zero `Index`
(see the counterexample theorem for that evaluation); on metadata with
several (distinct) top-level keys it silently behaves exactly as if only
the key iterated last were present, instead of rejecting the blob. -/
theorem putIndex_silently_uses_last_key (init : List (String × Json))
    (last : String × Json) (r s : Int) (b : Json)
    (hnd : ((init ++ [last]).map Prod.fst).Nodup)
    (h : EsConn.PutIndex (.obj (init ++ [last])) r s = some b) :
    EsConn.PutIndex (.obj [last]) r s = some b := by
  unfold EsConn.PutIndex at h
  rw [show unmarshalMeta (Json.obj (init ++ [last])) =
    unmarshalMetaEntries (init ++ [last]) from rfl] at h
  cases hm : unmarshalMetaEntries (init ++ [last]) with
  | none => rw [hm] at h; cases h
  | some meta =>
    rw [hm] at h
    dsimp only at h
    obtain ⟨m1, ix, hm1, hixl, rfl⟩ :=
      unmarshalMetaEntries_append_singleton init last meta hm
    have hkeys : m1.map Prod.fst = init.map Prod.fst :=
      unmarshalMetaEntries_keys init m1 hm1
    have hname : lastKeyName (m1 ++ [(last.1, ix)]) = last.1 := by
      unfold lastKeyName
      rw [List.map_append]
      simp [List.getLast?_concat]
    have hnotin : last.1 ∉ init.map Prod.fst := by
      rw [List.map_append] at hnd
      simp only [List.map_cons, List.map_nil] at hnd
      have := List.disjoint_of_nodup_append hnd
      intro hcon
      exact this hcon (by simp)
    have hfind1 : m1.find? (fun kv => kv.1 == last.1) = none := by
      rw [List.find?_eq_none]
      intro kv hkv
      have hmem : kv.1 ∈ init.map Prod.fst := by
        rw [← hkeys]
        exact List.mem_map_of_mem Prod.fst hkv
      simp only [beq_iff_eq]
      intro hcon
      rw [hcon] at hmem
      exact hnotin hmem
    have hlookup : mapLookupIndex (m1 ++ [(last.1, ix)]) last.1 = ix := by
      unfold mapLookupIndex
      rw [find?_append_of_none _ _ _ hfind1]
      simp [List.find?_cons]
    have hone : unmarshalMetaEntries [last] = some [(last.1, ix)] := by
      unfold unmarshalMetaEntries
      rw [hixl]
      rfl
    unfold EsConn.PutIndex
    rw [show unmarshalMeta (Json.obj [last]) =
      unmarshalMetaEntries [last] from rfl, hone]
    dsimp only
    have hname1 : lastKeyName [(last.1, ix)] = last.1 := by
      simp [lastKeyName]
    have hlookup1 : mapLookupIndex [(last.1, ix)] last.1 = ix := by
      simp [mapLookupIndex, List.find?_cons]
    rw [hname1, hlookup1]
    rw [hname, hlookup] at h
    exact h

/-- Witness for `putIndex_silently_uses_last_key` on a two-key blob. -/
theorem putIndex_silently_uses_last_key_witness :
    ((([("a", Json.obj [])] ++
        [("b", Json.obj [("settings", Json.obj [("index", Json.obj
          [("number_of_shards", Json.str "7"),
           ("number_of_replicas", Json.str "1")])])])]).map Prod.fst).Nodup ∧
      EsConn.PutIndex (Json.obj ([("a", Json.obj [])] ++
        [("b", Json.obj [("settings", Json.obj [("index", Json.obj
          [("number_of_shards", Json.str "7"),
           ("number_of_replicas", Json.str "1")])])])])) (-1) (-1) =
        some (Json.obj
          [("aliases", Json.obj []), ("mappings", Json.obj []),
           ("settings", Json.obj [("index", Json.obj
             [("cache", Json.null),
              ("number_of_shards", Json.str "7"),
              ("number_of_replicas", Json.str "1"),
              ("refresh_interval", Json.null),
              ("similarity", Json.null),
              ("analysis", Json.null),
              ("translog", Json.null),
              ("uuid", Json.null),
              ("version", Json.null)])]),
           ("warmers", Json.obj [])])) ∧
    EsConn.PutIndex (Json.obj [("b", Json.obj [("settings", Json.obj
        [("index", Json.obj [("number_of_shards", Json.str "7"),
          ("number_of_replicas", Json.str "1")])])])]) (-1) (-1) =
      some (Json.obj
        [("aliases", Json.obj []), ("mappings", Json.obj []),
         ("settings", Json.obj [("index", Json.obj
           [("cache", Json.null),
            ("number_of_shards", Json.str "7"),
            ("number_of_replicas", Json.str "1"),
            ("refresh_interval", Json.null),
            ("similarity", Json.null),
            ("analysis", Json.null),
            ("translog", Json.null),
            ("uuid", Json.null),
            ("version", Json.null)])]),
         ("warmers", Json.obj [])]) :=
  ⟨⟨by decide, rfl⟩,
    putIndex_silently_uses_last_key [("a", Json.obj [])]
      ("b", Json.obj [("settings", Json.obj [("index", Json.obj
        [("number_of_shards", Json.str "7"),
         ("number_of_replicas", Json.str "1")])])]) (-1) (-1) _
      (by decide) rfl⟩

lemma unmarshalIndex_marshalIndex (ix : Index) :
    unmarshalIndex (marshalIndex ix) = some ix := rfl

lemma unmarshalMeta_marshalMeta (m : List (String × Index)) :
    unmarshalMeta (marshalMeta m) = some m := by
  show unmarshalMetaEntries (m.map (fun kv => (kv.1, marshalIndex kv.2))) = some m
  induction m with
  | nil => rfl
  | cons kv rest ih =>
    simp only [List.map_cons]
    unfold unmarshalMetaEntries
    rw [show unmarshalIndex (marshalIndex kv.2) = some kv.2 from rfl, ih]

lemma lastKeyName_mapStoreIndex (m : List (String × Index)) (k : String)
    (v : Index) (hk : m ≠ [] → k = lastKeyName m) :
    lastKeyName (mapStoreIndex m k v) = lastKeyName m ∨
      (m = [] ∧ lastKeyName (mapStoreIndex m k v) = k) := by
  unfold mapStoreIndex
  by_cases hs : (m.find? (fun kv => kv.1 == k)).isSome
  · rw [if_pos hs]
    left
    unfold lastKeyName
    rw [List.map_map]
    congr 2
    apply List.map_congr_left
    intro kv _
    simp only [Function.comp_apply]
    by_cases hb : kv.1 == k
    · rw [if_pos hb]
      exact (eq_of_beq hb).symm
    · rw [if_neg hb]
  · rw [if_neg hs]
    cases m with
    | nil =>
      right
      refine ⟨rfl, ?_⟩
      simp [lastKeyName]
    | cons kv rest =>
      left
      unfold lastKeyName
      rw [List.map_append]
      simp only [List.map_cons, List.map_nil]
      rw [List.getLast?_concat]
      have : k = lastKeyName (kv :: rest) := hk (by simp)
      simp [this, lastKeyName]

lemma find?_mapStore_of_isSome (m : List (String × Index)) (k : String)
    (v : Index) (hs : (m.find? (fun kv => kv.1 == k)).isSome) :
    ((m.map (fun kv => if kv.1 == k then (k, v) else kv)).find?
      (fun kv => kv.1 == k)) = some (k, v) := by
  induction m with
  | nil => simp at hs
  | cons kv rest ih =>
    by_cases hb : kv.1 == k
    · simp only [List.map_cons, if_pos hb]
      rw [List.find?_cons_of_pos]
      simp
    · simp only [List.map_cons, if_neg hb]
      rw [List.find?_cons_of_neg _ (by simpa using hb)]
      rw [List.find?_cons_of_neg _ (by simpa using hb)] at hs
      exact ih hs

lemma mapLookupIndex_store_self (m : List (String × Index)) (k : String)
    (v : Index) : mapLookupIndex (mapStoreIndex m k v) k = v := by
  unfold mapStoreIndex mapLookupIndex
  by_cases hs : (m.find? (fun kv => kv.1 == k)).isSome
  · rw [if_pos hs, find?_mapStore_of_isSome m k v hs]
    rfl
  · rw [if_neg hs]
    have hnone : m.find? (fun kv => kv.1 == k) = none :=
      Option.not_isSome_iff_eq_none.mp hs
    rw [find?_append_of_none _ _ _ hnone]
    rw [List.find?_cons_of_pos _ (by simp)]
    rfl

lemma EsConn.GetIndex_eq (src : Json) (meta : List (String × Index))
    (hm : unmarshalMeta src = some meta) :
    EsConn.GetIndex src = some (marshalMeta (mapStoreIndex meta
      (lastKeyName meta)
      { mapLookupIndex meta (lastKeyName meta) with Aliases := [] })) := by
  unfold EsConn.GetIndex
  rw [hm]

lemma EsConn.PutIndex_marshalMeta (m : List (String × Index)) :
    EsConn.PutIndex (marshalMeta m) (-1) (-1) =
      some (marshalIndex
        { mapLookupIndex m (lastKeyName m) with Aliases := [] }) := by
  unfold EsConn.PutIndex
  rw [unmarshalMeta_marshalMeta m]
  dsimp only
  have hneg : ¬ ((-1 : Int) ≥ 0) := by norm_num
  rw [if_neg hneg, if_neg hneg]

/-- C5 as amended: feeding `GetIndex`'s result to `PutIndex` with both
overrides negative writes the re-marshalled form of the selected source
index entry with the aliases cleared.  The settings block that arrives at
the destination is the marshalling of the unmarshalled source settings:
the nine fields the `IndexSettings` struct models (cache,
number_of_shards, number_of_replicas, refresh_interval, similarity,
analysis, translog, uuid, version) pass through unchanged, but any other
settings field of the source is dropped by the struct unmarshalling
rather than passed through, and modelled fields absent in the source
materialize as null (or "" for the two string fields). -/
theorem getIndex_putIndex_settings_roundtrip (src out body : Json)
    (h1 : EsConn.GetIndex src = some out)
    (h2 : EsConn.PutIndex out (-1) (-1) = some body) :
    ∃ meta, unmarshalMeta src = some meta ∧
      body = marshalIndex
        { mapLookupIndex meta (lastKeyName meta) with Aliases := [] } ∧
      jsonGetField body "settings" =
        some (marshalIndexSettings
          (mapLookupIndex meta (lastKeyName meta)).Settings) ∧
      jsonGetField body "aliases" = some (.obj []) := by
  cases hm : unmarshalMeta src with
  | none =>
    unfold EsConn.GetIndex at h1
    rw [hm] at h1
    cases h1
  | some meta =>
    have hout : out = marshalMeta (mapStoreIndex meta (lastKeyName meta)
        { mapLookupIndex meta (lastKeyName meta) with Aliases := [] }) := by
      have hg := EsConn.GetIndex_eq src meta hm
      rw [h1] at hg
      exact Option.some.inj hg
    subst hout
    rw [EsConn.PutIndex_marshalMeta] at h2
    have hname : lastKeyName (mapStoreIndex meta (lastKeyName meta)
        { mapLookupIndex meta (lastKeyName meta) with Aliases := [] }) =
        lastKeyName meta := by
      rcases lastKeyName_mapStoreIndex meta (lastKeyName meta)
          { mapLookupIndex meta (lastKeyName meta) with Aliases := [] }
          (fun _ => rfl) with h | ⟨_, h⟩ <;> exact h
    rw [hname, mapLookupIndex_store_self] at h2
    have hb : body = marshalIndex
        { mapLookupIndex meta (lastKeyName meta) with Aliases := [] } :=
      (Option.some.inj h2).symm
    refine ⟨meta, rfl, hb, ?_, ?_⟩
    · rw [hb]
      rfl
    · rw [hb]
      rfl

/-- Witness for `getIndex_putIndex_settings_roundtrip` on a one-key
metadata blob with an empty index object. -/
theorem getIndex_putIndex_settings_roundtrip_witness :
    EsConn.GetIndex (Json.obj [("i", Json.obj [])]) =
      some (marshalMeta [("i", zeroIndex)]) ∧
    EsConn.PutIndex (marshalMeta [("i", zeroIndex)]) (-1) (-1) =
      some (marshalIndex zeroIndex) ∧
    ∃ meta, unmarshalMeta (Json.obj [("i", Json.obj [])]) = some meta ∧
      marshalIndex zeroIndex = marshalIndex
        { mapLookupIndex meta (lastKeyName meta) with Aliases := [] } ∧
      jsonGetField (marshalIndex zeroIndex) "settings" =
        some (marshalIndexSettings
          (mapLookupIndex meta (lastKeyName meta)).Settings) ∧
      jsonGetField (marshalIndex zeroIndex) "aliases" = some (.obj []) :=
  ⟨rfl, rfl,
    getIndex_putIndex_settings_roundtrip (Json.obj [("i", Json.obj [])])
      (marshalMeta [("i", zeroIndex)]) (marshalIndex zeroIndex) rfl rfl⟩

/-- C5 counterexample input: source metadata whose `settings.index`
carries a field (`codec`) that the Go `IndexSettings` struct does not
model. -/
def c5src : Json :=
  .obj [("idx", .obj [
    ("aliases", .obj [("old_alias", .obj [])]),
    ("mappings", .obj [("doc", .obj [])]),
    ("settings", .obj [("index", .obj [
      ("codec", .str "best_compression"),
      ("number_of_shards", .str "5"),
      ("number_of_replicas", .str "1")])]),
    ("warmers", .obj [])])]

/-- Settings block written to the destination by GetIndex → PutIndex
with no overrides on the C5 counterexample source. -/
def c5written : Option Json :=
  (EsConn.GetIndex c5src).bind (fun out => EsConn.PutIndex out (-1) (-1))

/-- Projection to the `settings.index` object of a metadata value. -/
def settingsIndexOf (j : Option Json) : Option Json :=
  (j.bind (fun x => jsonGetField x "settings")).bind
    (fun x => jsonGetField x "index")

/-- C5 counterexample: the `codec` setting of the source does not survive
the GetIndex → PutIndex round trip — the struct-based unmarshalling drops
every settings field it does not model — so the written settings block is
not identical to the source's. -/
theorem getIndex_putIndex_drops_unmodeled_setting :
    (settingsIndexOf c5written).bind (fun x => jsonGetField x "codec") =
      none ∧
    (settingsIndexOf (jsonGetField c5src "idx")).bind
      (fun x => jsonGetField x "codec") = some (.str "best_compression") ∧
    settingsIndexOf c5written ≠ settingsIndexOf (jsonGetField c5src "idx") := by
  refine ⟨rfl, rfl, ?_⟩
  intro hcon
  have h1 : (settingsIndexOf c5written).bind
      (fun x => jsonGetField x "codec") = none := rfl
  rw [hcon] at h1
  have h2 : (settingsIndexOf (jsonGetField c5src "idx")).bind
      (fun x => jsonGetField x "codec") = some (.str "best_compression") := rfl
  rw [h1] at h2
  cases h2

/-- Model of decoding a scroll response body into the `hits.hits` list.
`none` stands for a body that is not valid JSON: `json.Unmarshal` fails
and the target struct keeps its zero value, an empty hit list; valid
JSON of the wrong shape likewise leaves the zero value.  (Partial
decoding of arrays with mixed element types is not modelled; no claim
depends on it.)  Hits are kept opaque. -/
def extractHits (body : Option Json) : List Json :=
  match body with
  | none => []
  | some j =>
    match jsonGetField j "hits" with
    | some (.obj inner) =>
      match lookupField inner "hits" with
      | some (.arr hs) => hs
      | _ => []
    | _ => []

/-- Model of `Scroll.Next` (part_002 version): a body-read error is
returned as `errRead`; otherwise the result of `json.Unmarshal` is used
with its error DISCARDED (line 167), and the function returns the
decoded hits together with `errRead`, which is nil on this path — so a
malformed body yields `(nil hits, nil error)`. -/
def Scroll.Next (readResult : Except String (Option Json)) :
    Except String (List Json) :=
  match readResult with
  | .error e => .error e
  | .ok body => .ok (extractHits body)

/-- The extraction loop of `readBulk` over scroll pages: keep fetching
while the page is non-empty and error-free, collecting the hits in
order.  `pages i` is the raw outcome of the i-th `scroll.Next()` call;
`fuel` bounds the modelled iteration count. -/
def scrollLoop (pages : Nat → Except String (Option Json)) :
    Nat → Nat → List Json
  | 0, _ => []
  | fuel + 1, i =>
    match Scroll.Next (pages i) with
    | .error _ => []
    | .ok [] => []
    | .ok hs => hs ++ scrollLoop pages fuel (i + 1)

lemma scrollLoop_stops (pages : Nat → Except String (Option Json))
    (H : Nat → List Json) (k : Nat) :
    ∀ fuel j, (∀ i, j ≤ i → i < k →
        Scroll.Next (pages i) = .ok (H i) ∧ H i ≠ []) →
      Scroll.Next (pages k) = .ok [] → j ≤ k → k - j < fuel →
      scrollLoop pages fuel j = ((List.range' j (k - j)).map H).flatten := by
  intro fuel
  induction fuel with
  | zero => intro j _ _ _ hlt; omega
  | succ fuel ih =>
    intro j hpre hk hjk hlt
    by_cases hj : j = k
    · subst hj
      unfold scrollLoop
      rw [hk]
      simp
    · have hjlt : j < k := by omega
      have hj1 := hpre j (le_refl j) hjlt
      unfold scrollLoop
      rw [hj1.1]
      have hrec := ih (j + 1) (fun i hi1 hi2 => hpre i (by omega) hi2) hk
        (by omega) (by omega)
      have hrange : k - j = (k - (j + 1)) + 1 := by omega
      cases hH : H j with
      | nil => exact absurd hH hj1.2
      | cons a tl =>
        dsimp only
        rw [← hH, hrec, hrange, List.range'_succ]
        simp

/-- C10: `Scroll.Next` discards the JSON-unmarshal error: for any
successfully read body that fails to decode, it returns a nil error with
an empty hit list, which the `readBulk` extraction loop cannot
distinguish from the terminal empty page — so a malformed scroll
response at page `k` silently ends that collection's extraction with
exactly the hits of the pages before `k`, instead of raising an error. -/
theorem scrollNext_swallows_unmarshal_error
    (pages : Nat → Except String (Option Json)) (H : Nat → List Json)
    (k fuel : Nat)
    (hpre : ∀ i, i < k → Scroll.Next (pages i) = .ok (H i) ∧ H i ≠ [])
    (hk : pages k = .ok none) (hfuel : k < fuel) :
    Scroll.Next (pages k) = .ok [] ∧
    scrollLoop pages fuel 0 = ((List.range' 0 k).map H).flatten := by
  have hnext : Scroll.Next (pages k) = .ok [] := by
    rw [hk]
    rfl
  refine ⟨hnext, ?_⟩
  have := scrollLoop_stops pages H k fuel 0
    (fun i _ hi => hpre i hi) hnext (by omega) (by omega)
  simpa using this

/-- Page oracle for the C10 witness: one good page with a single hit,
then a body that fails to unmarshal. -/
def c10pages : Nat → Except String (Option Json) :=
  fun n => if n = 0
    then .ok (some (.obj [("hits", .obj
      [("hits", .arr [.obj [("_id", .str "1")]])])]))
    else .ok none

/-- Hit sequence of the good pages in the C10 witness. -/
def c10hits : Nat → List Json := fun _ => [.obj [("_id", .str "1")]]

/-- Witness for `scrollNext_swallows_unmarshal_error`: one good page with
a single hit, then a malformed body at page 1. -/
theorem scrollNext_swallows_unmarshal_error_witness :
    ((∀ i, i < 1 → Scroll.Next (c10pages i) = .ok (c10hits i) ∧
        c10hits i ≠ []) ∧
      c10pages 1 = .ok none ∧ 1 < 2) ∧
    Scroll.Next (c10pages 1) = .ok [] ∧
    scrollLoop c10pages 2 0 = ((List.range' 0 1).map c10hits).flatten :=
  ⟨⟨fun i hi => by
      interval_cases i
      exact ⟨rfl, by simp [c10hits]⟩, rfl, by omega⟩,
    scrollNext_swallows_unmarshal_error c10pages c10hits 1 2
      (fun i hi => by
        interval_cases i
        exact ⟨rfl, by simp [c10hits]⟩) rfl (by omega)⟩

/-- Model of `bufio.Reader.ReadBytes` with delimiter newline: the bytes
up to AND INCLUDING the first newline, plus the remaining input; `none`
is the EOF-before-delimiter error path (the partially read bytes are the
whole input in that case, handled at the call sites). -/
def readBytesNewline : List Char → Option (List Char × List Char)
  | [] => none
  | c :: rest =>
    if c = '\n' then some ([c], rest)
    else (readBytesNewline rest).map (fun pr => (c :: pr.1, pr.2))

/-- Splitting a byte sequence at every double quote: the pieces between
(and around) the quotes, in order. -/
def splitQuotes : List Char → List (List Char)
  | [] => [[]]
  | c :: rest =>
    if c = '"' then [] :: splitQuotes rest
    else
      match splitQuotes rest with
      | [] => [[c]]
      | l :: ls => (c :: l) :: ls

/-- Value of one hexadecimal digit, as used in `\uXXXX` escapes. -/
def hexVal (c : Char) : Option Nat :=
  if '0' ≤ c ∧ c ≤ '9' then some (c.toNat - 48)
  else if 'a' ≤ c ∧ c ≤ 'f' then some (c.toNat - 87)
  else if 'A' ≤ c ∧ c ≤ 'F' then some (c.toNat - 55)
  else none

mutual

/-- Decoding of JSON string content as `json.Unmarshal` performs it: the
standard escapes (quote, backslash, slash, b, f, n, r, t) and `\uXXXX`
code points are processed, while an unescaped control character (below
0x20), an invalid escape code, or a truncated escape is an unmarshal
error.  (Go combines `\u` surrogate pairs and substitutes replacement
characters for lone surrogates; that corner is not modelled — no theorem
below involves `\u` escapes.) -/
def unescapeJsonChars : List Char → Option (List Char)
  | [] => some []
  | c :: rest =>
    if c = '\\' then unescapeAfterBackslash rest
    else if c.toNat < 32 then none
    else (unescapeJsonChars rest).map (fun l => c :: l)

/-- Decoding of the character(s) following a backslash inside a JSON
string, with the rest of the content. -/
def unescapeAfterBackslash : List Char → Option (List Char)
  | [] => none
  | e :: tl =>
    if e = '"' then (unescapeJsonChars tl).map (fun l => '"' :: l)
    else if e = '\\' then (unescapeJsonChars tl).map (fun l => '\\' :: l)
    else if e = '/' then (unescapeJsonChars tl).map (fun l => '/' :: l)
    else if e = 'b' then (unescapeJsonChars tl).map (fun l => Char.ofNat 8 :: l)
    else if e = 'f' then (unescapeJsonChars tl).map (fun l => Char.ofNat 12 :: l)
    else if e = 'n' then (unescapeJsonChars tl).map (fun l => '\n' :: l)
    else if e = 'r' then (unescapeJsonChars tl).map (fun l => Char.ofNat 13 :: l)
    else if e = 't' then (unescapeJsonChars tl).map (fun l => '\t' :: l)
    else if e = 'u' then
      match tl with
      | h1 :: h2 :: h3 :: h4 :: tl2 =>
        match hexVal h1, hexVal h2, hexVal h3, hexVal h4 with
        | some a, some b, some c2, some d =>
          (unescapeJsonChars tl2).map
            (fun l => Char.ofNat (((a * 16 + b) * 16 + c2) * 16 + d) :: l)
        | _, _, _, _ => none
      | _ => none
    else none

end

/-- Escape-free JSON string content (no backslash, no control character)
decodes verbatim. -/
lemma unescapeJsonChars_verbatim (s : List Char) (hb : '\\' ∉ s)
    (hc : ∀ c ∈ s, 32 ≤ c.toNat) : unescapeJsonChars s = some s := by
  induction s with
  | nil => rfl
  | cons c rest ih =>
    have hcne : c ≠ '\\' := fun hcon => hb (hcon ▸ List.mem_cons_self c rest)
    have hge : ¬ c.toNat < 32 := by
      have := hc c (List.mem_cons_self c rest)
      omega
    rw [unescapeJsonChars, if_neg hcne, if_neg hge,
      ih (fun hm => hb (List.mem_cons_of_mem c hm))
        (fun x hx => hc x (List.mem_cons_of_mem c hx))]
    rfl

/-- Model of `json.Unmarshal` of the one-line creation header into the
anonymous struct of `ParseBulk`, for the line layout that `Bulk.Store`
emits with no quote character inside the `_id`/`_type` values (a quote
in a value is emitted unescaped by the template and shifts the quoted
token boundaries, yielding a different parse): the five quoted tokens
are, in order, the key `create`, the key `_id`, its value, the key
`_type`, and its value, and each value is decoded with the JSON
string-content rules — escapes processed, control characters and
invalid escapes rejected as unmarshal errors. -/
def decodeCreateHeader (line : List Char) : Option (String × String) :=
  match splitQuotes line with
  | [_, k0, _, k1, _, v1, _, k2, _, v2, _] =>
    match unescapeJsonChars v1, unescapeJsonChars v2 with
    | some id, some ty =>
      if k0 = "create".data ∧ k1 = "_id".data ∧ k2 = "_type".data
      then some (String.mk id, String.mk ty)
      else none
    | _, _ => none
  | _ => none

/-- The one-line creation header that the `Store` template
`\x7b "create" : \x7b "_id" : "%v", "_type": "%v" \x7d \x7d` produces. -/
def createHeader (id ty : String) : List Char :=
  "\x7b \"create\" : \x7b \"_id\" : \"".data ++ id.data ++
    "\", \"_type\": \"".data ++ ty.data ++ "\" \x7d \x7d".data

/-- Model of `Bulk.Store`: `fmt.Fprintf` of the template — the creation
header, a newline, the raw document bytes, a newline. -/
def Bulk.Store (bulk : Bulk) : List Char :=
  createHeader bulk.Id bulk.Ty ++ '\n' :: (bulk.Doc ++ ['\n'])

/-- Model of `ParseBulk`: read the header line (error if missing
newline), unmarshal it (error on failure), then read the document line;
`ReadBytes` keeps the trailing newline in the returned bytes, and on EOF
before a newline the record is still returned alongside the EOF error,
its `Doc` being all remaining bytes. -/
def ParseBulk (input : List Char) : Option (Bulk × List Char) :=
  match readBytesNewline input with
  | none => none
  | some (op, rest) =>
    match decodeCreateHeader op with
    | none => none
    | some (id, ty) =>
      match readBytesNewline rest with
      | some (item, rest2) => some ({ Id := id, Ty := ty, Doc := item }, rest2)
      | none => some ({ Id := id, Ty := ty, Doc := rest }, [])

/-- C8 counterexample: storing the record ("a", "t", doc "x") and
parsing it back yields `Doc = "x\n"` — `ReadBytes` includes the
delimiter — not the original body "x". -/
theorem parseBulk_store_doc_gains_newline :
    ParseBulk (Bulk.Store ⟨"a", "t", ['x']⟩) =
      some (⟨"a", "t", ['x', '\n']⟩, []) ∧
    (⟨"a", "t", ['x', '\n']⟩ : Bulk) ≠ ⟨"a", "t", ['x']⟩ :=
  ⟨by decide, by decide⟩

lemma readBytesNewline_append (xs rest : List Char) (h : '\n' ∉ xs) :
    readBytesNewline (xs ++ '\n' :: rest) = some (xs ++ ['\n'], rest) := by
  induction xs with
  | nil => simp [readBytesNewline]
  | cons c tl ih =>
    have hc : c ≠ '\n' := fun hcon => h (hcon ▸ List.mem_cons_self c tl)
    have htl : '\n' ∉ tl := fun hm => h (List.mem_cons_of_mem c hm)
    simp only [List.cons_append, readBytesNewline, if_neg hc, List.append_eq]
    rw [ih htl]
    rfl

lemma splitQuotes_append_quote (xs rest : List Char) (h : '"' ∉ xs) :
    splitQuotes (xs ++ '"' :: rest) = xs :: splitQuotes rest := by
  induction xs with
  | nil => simp [splitQuotes]
  | cons c tl ih =>
    have hc : c ≠ '"' := fun hcon => h (hcon ▸ List.mem_cons_self c tl)
    have htl : '"' ∉ tl := fun hm => h (List.mem_cons_of_mem c hm)
    simp only [List.cons_append, splitQuotes, if_neg hc, List.append_eq]
    rw [ih htl]

lemma splitQuotes_no_quote (xs : List Char) (h : '"' ∉ xs) :
    splitQuotes xs = [xs] := by
  induction xs with
  | nil => rfl
  | cons c tl ih =>
    have hc : c ≠ '"' := fun hcon => h (hcon ▸ List.mem_cons_self c tl)
    have htl : '"' ∉ tl := fun hm => h (List.mem_cons_of_mem c hm)
    simp only [splitQuotes, if_neg hc]
    rw [ih htl]

/-- C8 as amended: for every record whose `Id` and `Type` contain no
quote, no backslash and no control character — so their JSON encodings
in the header are escape-free and `json.Unmarshal` decodes them
verbatim — and whose document contains no newline, `Store` then
`ParseBulk` recovers the same `Id`, the same `Type`, and the document
body with one newline appended (the delimiter kept by `ReadBytes`),
consuming the whole stored output. -/
theorem parseBulk_store_roundtrip (b : Bulk)
    (h1 : '"' ∉ b.Id.data) (h1b : '\\' ∉ b.Id.data)
    (h1c : ∀ c ∈ b.Id.data, 32 ≤ c.toNat)
    (h3 : '"' ∉ b.Ty.data) (h3b : '\\' ∉ b.Ty.data)
    (h3c : ∀ c ∈ b.Ty.data, 32 ≤ c.toNat)
    (h5 : '\n' ∉ b.Doc) :
    ParseBulk (Bulk.Store b) =
      some ({ b with Doc := b.Doc ++ ['\n'] }, []) := by
  have h2 : '\n' ∉ b.Id.data := fun hm => absurd (h1c '\n' hm) (by decide)
  have h4 : '\n' ∉ b.Ty.data := fun hm => absurd (h3c '\n' hm) (by decide)
  have hnl : '\n' ∉ createHeader b.Id b.Ty := by
    unfold createHeader
    intro hmem
    simp only [List.mem_append] at hmem
    rcases hmem with (((hx | hx) | hx) | hx) | hx
    exacts [absurd hx (by decide), h2 hx, absurd hx (by decide), h4 hx,
      absurd hx (by decide)]
  have hform : createHeader b.Id b.Ty ++ ['\n'] =
      "\x7b ".data ++ '"' :: ("create".data ++ '"' :: (" : \x7b ".data ++
        '"' :: ("_id".data ++ '"' :: (" : ".data ++
        '"' :: (b.Id.data ++ '"' :: (", ".data ++
        '"' :: ("_type".data ++ '"' :: (": ".data ++
        '"' :: (b.Ty.data ++ '"' :: " \x7d \x7d\n".data))))))))) := by
    simp [createHeader]
  have hsplit : splitQuotes (createHeader b.Id b.Ty ++ ['\n']) =
      ["\x7b ".data, "create".data, " : \x7b ".data, "_id".data,
       " : ".data, b.Id.data, ", ".data, "_type".data, ": ".data,
       b.Ty.data, " \x7d \x7d\n".data] := by
    rw [hform]
    rw [splitQuotes_append_quote _ _ (by decide)]
    rw [splitQuotes_append_quote _ _ (by decide)]
    rw [splitQuotes_append_quote _ _ (by decide)]
    rw [splitQuotes_append_quote _ _ (by decide)]
    rw [splitQuotes_append_quote _ _ (by decide)]
    rw [splitQuotes_append_quote _ _ h1]
    rw [splitQuotes_append_quote _ _ (by decide)]
    rw [splitQuotes_append_quote _ _ (by decide)]
    rw [splitQuotes_append_quote _ _ (by decide)]
    rw [splitQuotes_append_quote _ _ h3]
    rw [splitQuotes_no_quote _ (by decide)]
  have hdecode : decodeCreateHeader (createHeader b.Id b.Ty ++ ['\n']) =
      some (b.Id, b.Ty) := by
    unfold decodeCreateHeader
    rw [hsplit]
    dsimp only
    rw [unescapeJsonChars_verbatim b.Id.data h1b h1c,
      unescapeJsonChars_verbatim b.Ty.data h3b h3c]
    dsimp only
    rw [if_pos ⟨rfl, rfl, rfl⟩]
  have hread1 : readBytesNewline (Bulk.Store b) =
      some (createHeader b.Id b.Ty ++ ['\n'], b.Doc ++ ['\n']) :=
    readBytesNewline_append (createHeader b.Id b.Ty) (b.Doc ++ ['\n']) hnl
  have hread2 : readBytesNewline (b.Doc ++ ['\n']) =
      some (b.Doc ++ ['\n'], []) :=
    readBytesNewline_append b.Doc [] h5
  unfold ParseBulk
  rw [hread1]
  dsimp only
  rw [hdecode]
  dsimp only
  rw [hread2]

/-- Witness for `parseBulk_store_roundtrip` on the record
("doc-7", "product", body "j"). -/
theorem parseBulk_store_roundtrip_witness :
    ('"' ∉ ("doc-7" : String).data ∧ '\\' ∉ ("doc-7" : String).data ∧
     (∀ c ∈ ("doc-7" : String).data, 32 ≤ c.toNat) ∧
     '"' ∉ ("product" : String).data ∧ '\\' ∉ ("product" : String).data ∧
     (∀ c ∈ ("product" : String).data, 32 ≤ c.toNat) ∧
     '\n' ∉ ['j']) ∧
    ParseBulk (Bulk.Store ⟨"doc-7", "product", ['j']⟩) =
      some (⟨"doc-7", "product", ['j', '\n']⟩, []) :=
  ⟨⟨by decide, by decide, by decide, by decide, by decide, by decide,
    by decide⟩,
    parseBulk_store_roundtrip ⟨"doc-7", "product", ['j']⟩
      (by decide) (by decide) (by decide) (by decide) (by decide)
      (by decide) (by decide)⟩
